import Mathlib

/-!
Verification of the glyph-outline triangulation, text-layout and
compositing code of the fontrendereringstuff repository
(src/mesh.rs, src/text.rs, src/renderer.rs).

Modelling conventions:
the Rust f32 values are modelled with exact rationals;
machine-integer wrap-around is explicit (u16 values are reduced mod 65536);
a Rust panic (unwrap of a None or Err value, reachable in triangulate and
in the outline callbacks) is modelled by an Option-valued function
returning none;
the external earcutr::earcut call is an abstract parameter of type
List rational coordinates -> hole starts -> dimensions -> Option index
list, where none models the Err case of its Result.
-/

/-- A 2D point, the (f32, f32) pairs of mesh.rs. -/
abbrev Point : Type := ℚ × ℚ

/-- GlyphVertex as consumed by mesh.rs: position (z is a placeholder),
uv, metadata bitfield and an inline color. -/
structure GlyphVertex where
  position : ℚ × ℚ × ℚ
  uv : ℚ × ℚ
  metadata : ℤ
  color : ℚ × ℚ × ℚ
deriving DecidableEq, Repr

/-- The shoelace sum of is_ccw_wind in mesh.rs: for index in 0..len,
sum += current.0 * next.1 - next.0 * current.1, with next taken
cyclically via (index + 1) % len. -/
def shoelace (vertices : List Point) : ℚ :=
  (List.range vertices.length).foldl
    (fun sum index =>
      let current := vertices.getD index (0, 0)
      let next := vertices.getD ((index + 1) % vertices.length) (0, 0)
      sum + (current.1 * next.2 - next.1 * current.2)) 0

/-- is_ccw_wind from mesh.rs: the comparison is sum >= 0.0, so a zero
sum lands on the counter-clockwise side. -/
def is_ccw_wind (vertices : List Point) : Bool :=
  decide (shoelace vertices ≥ 0)

/-- The hole test applied to each ring in GlyphMeshBuilder::triangulate:
is_ccw_wind(points) ^ reverse_wind. -/
def isPolygonHole (reverse_wind : Bool) (points : List Point) : Bool :=
  (is_ccw_wind points).xor reverse_wind

/-- The state of GlyphMeshBuilder: the face-level winding flag, the flat
polygon rings, and the collected curve triangles with their
is_inverse flag. -/
structure GlyphMeshBuilder where
  reverse_wind : Bool
  polygons : List (List Point)
  bezier_polygons : List ((Point × Point × Point) × Bool)
deriving DecidableEq, Repr

/-- GlyphMeshBuilder::new, with reverse_wind already set the way build
sets it from the face tables (true iff the glyf table is absent). -/
def GlyphMeshBuilder.new (reverse_wind : Bool) : GlyphMeshBuilder :=
  { reverse_wind := reverse_wind, polygons := [], bezier_polygons := [] }

/-- move_to: pushes a fresh ring holding the start point. -/
def GlyphMeshBuilder.move_to (b : GlyphMeshBuilder) (x y : ℚ) : GlyphMeshBuilder :=
  { b with polygons := b.polygons ++ [[(x, y)]] }

/-- line_to: appends to the last ring; the source unwraps last_mut, so
an event stream with no preceding move_to panics (none). -/
def GlyphMeshBuilder.line_to (b : GlyphMeshBuilder) (x y : ℚ) : Option GlyphMeshBuilder :=
  match b.polygons.getLast? with
  | none => none
  | some ring => some { b with polygons := b.polygons.dropLast ++ [ring ++ [(x, y)]] }

/-- quad_to: records the curve triangle (previous point, control,
endpoint) with its is_inverse flag; pushes the control point onto the
ring only when is_inverse holds, then always pushes the endpoint.
The source unwraps the last ring and its last point (none = panic). -/
def GlyphMeshBuilder.quad_to (b : GlyphMeshBuilder) (x1 y1 x y : ℚ) : Option GlyphMeshBuilder := do
  let ring ← b.polygons.getLast?
  let p0 ← ring.getLast?
  let is_inverse := (is_ccw_wind [p0, (x1, y1), (x, y)]).xor b.reverse_wind
  let ring := ring ++ (if is_inverse then [(x1, y1)] else []) ++ [(x, y)]
  some { b with
    polygons := b.polygons.dropLast ++ [ring],
    bezier_polygons := b.bezier_polygons ++ [((p0, (x1, y1), (x, y)), is_inverse)] }

/-- curve_to: splits the cubic at the midpoint of the two control
points and handles each half like quad_to. -/
def GlyphMeshBuilder.curve_to (b : GlyphMeshBuilder) (x1 y1 x2 y2 x y : ℚ) :
    Option GlyphMeshBuilder := do
  let ix := x1 + (x2 - x1) / 2
  let iy := y1 + (y2 - y1) / 2
  let ring ← b.polygons.getLast?
  let p0 ← ring.getLast?
  let inv1 := (is_ccw_wind [p0, (x1, y1), (ix, iy)]).xor b.reverse_wind
  let inv2 := (is_ccw_wind [(ix, iy), (x2, y2), (x, y)]).xor b.reverse_wind
  let ring := ring ++ (if inv1 then [(x1, y1)] else []) ++ [(ix, iy)]
      ++ (if inv2 then [(x2, y2)] else []) ++ [(x, y)]
  some { b with
    polygons := b.polygons.dropLast ++ [ring],
    bezier_polygons := b.bezier_polygons
      ++ [((p0, (x1, y1), (ix, iy)), inv1), (((ix, iy), (x2, y2), (x, y)), inv2)] }

/-- The four outline events of the ttf_parser OutlineBuilder contract
(close is a no-op in the source). -/
inductive OutlineEvent where
  | moveTo (x y : ℚ)
  | lineTo (x y : ℚ)
  | quadTo (x1 y1 x y : ℚ)
  | curveTo (x1 y1 x2 y2 x y : ℚ)
  | close
deriving DecidableEq, Repr

/-- Dispatch of one outline event to the builder callbacks. -/
def applyEvent (b : GlyphMeshBuilder) : OutlineEvent → Option GlyphMeshBuilder
  | .moveTo x y => some (b.move_to x y)
  | .lineTo x y => b.line_to x y
  | .quadTo x1 y1 x y => b.quad_to x1 y1 x y
  | .curveTo x1 y1 x2 y2 x y => b.curve_to x1 y1 x2 y2 x y
  | .close => some b

/-- Feeding a whole outline event stream to the builder, as
face.outline_glyph does through the callback trait. -/
def applyEvents : List OutlineEvent → GlyphMeshBuilder → Option GlyphMeshBuilder
  | [], b => some b
  | e :: rest, b =>
    match applyEvent b e with
    | none => none
    | some b => applyEvents rest b

/-- One ring as a flat coordinate list, the Vec of two-entry Vecs built
inside triangulate. -/
def ringCoords (ring : List Point) : List ℚ :=
  ring.flatMap (fun v => [v.1, v.2])

/-- The flatten step of the external earcutr crate applied to one shape
group: concatenated coordinates, the start vertex index of every hole
ring, and dimensions = 2. -/
def flattenGroup (rings : List (List Point)) : List ℚ × List ℕ × ℕ :=
  ((rings.map ringCoords).flatten,
   (List.range rings.length).tail.map (fun k => ((rings.take k).map List.length).sum),
   2)

/-- Rebuilding (x, y) pairs from a flat coordinate list; this is the
partition of the indices into even and odd followed by a zip, as done
in triangulate after earcut returns. -/
def pairUp : List ℚ → List Point
  | x :: y :: rest => (x, y) :: pairUp rest
  | _ => []

/-- A flat-fill vertex as emitted by triangulate: uv (0,0), metadata 0
and an inline white color. -/
def flatVertex (p : Point) : GlyphVertex :=
  { position := (p.1, p.2, 0), uv := (0, 0), metadata := 0, color := (1, 1, 1) }

/-- The three vertices appended for one curve triangle: uv values
(0,0), (0.5,0), (1,1) in vertex order and metadata 0b10 with bit 0 set
to the is_inverse flag. -/
def bezierVertices (tri : Point × Point × Point) (is_inverse : Bool) : List GlyphVertex :=
  let md : ℤ := 2 + (if is_inverse then 1 else 0)
  [{ position := (tri.1.1, tri.1.2, 0), uv := (0, 0), metadata := md, color := (1, 1, 1) },
   { position := (tri.2.1.1, tri.2.1.2, 0), uv := (1/2, 0), metadata := md, color := (1, 1, 1) },
   { position := (tri.2.2.1, tri.2.2.2, 0), uv := (1, 1), metadata := md, color := (1, 1, 1) }]

/-- The grouping loop of triangulate: a non-hole ring starts a new
group, and a hole ring is pushed into the last group; the source calls
last_mut().unwrap() there, so a hole ring with no preceding group
panics (none). -/
def groupPolygons :
    List (List Point × Bool) → List (List (List Point)) → Option (List (List (List Point)))
  | [], acc => some acc
  | (points, hole) :: rest, acc =>
    if hole then
      match acc.getLast? with
      | none => none
      | some g => groupPolygons rest (acc.dropLast ++ [g ++ [points]])
    else
      groupPolygons rest (acc ++ [[points]])

/-- The per-group triangulation loop: flatten the group, run earcut,
offset the returned indices by the running vertex count with the u16
cast of the source, and append the flat-fill vertices. The source
unwraps the earcut Result, so an earcut failure panics (none). -/
def processGroups (earcut : List ℚ → List ℕ → ℕ → Option (List ℕ)) :
    List (List (List Point)) → List GlyphVertex → List ℕ →
    Option (List GlyphVertex × List ℕ)
  | [], vertices, indices => some (vertices, indices)
  | g :: rest, vertices, indices =>
    match earcut (flattenGroup g).1 (flattenGroup g).2.1 (flattenGroup g).2.2 with
    | none => none
    | some tris =>
      processGroups earcut rest
        (vertices ++ (pairUp (flattenGroup g).1).map flatVertex)
        (indices ++ tris.map (fun t => (vertices.length + t) % 65536))

/-- The curve-triangle loop at the end of triangulate: three fresh
indices (u16 arithmetic, hence mod 65536) and three fresh vertices per
curve triangle. -/
def processBeziers :
    List ((Point × Point × Point) × Bool) → List GlyphVertex → List ℕ →
    List GlyphVertex × List ℕ
  | [], vertices, indices => (vertices, indices)
  | (tri, inv) :: rest, vertices, indices =>
    let index := vertices.length % 65536
    processBeziers rest (vertices ++ bezierVertices tri inv)
      (indices ++ [index, (index + 1) % 65536, (index + 2) % 65536])

/-- GlyphMeshBuilder::triangulate, parametrised by the external earcut
function; none models a panic (hole ring first, or earcut Err). -/
def GlyphMeshBuilder.triangulate (b : GlyphMeshBuilder)
    (earcut : List ℚ → List ℕ → ℕ → Option (List ℕ)) :
    Option (List GlyphVertex × List ℕ) := do
  let is_polygon_hole := b.polygons.map (isPolygonHole b.reverse_wind)
  let groups ← groupPolygons (b.polygons.zip is_polygon_hole) []
  let (vertices, indices) ← processGroups earcut groups [] []
  some (processBeziers b.bezier_polygons vertices indices)

/-- GlyphMeshBuilder::build on a glyph whose outline exists: feed the
outline events through the callbacks, then triangulate; none models a
panic inside either stage. -/
def buildMesh (reverse_wind : Bool) (events : List OutlineEvent)
    (earcut : List ℚ → List ℕ → ℕ → Option (List ℕ)) :
    Option (List GlyphVertex × List ℕ) := do
  let b ← applyEvents events (GlyphMeshBuilder.new reverse_wind)
  b.triangulate earcut

/-- TEXTURE_SIZE from main.rs, read by mesh.rs during layout:
(width, height) = (1920, 1080). -/
def TEXTURE_SIZE : ℕ × ℕ := (1920, 1080)

/-- The shaping record consumed by TextMeshBuilder (the GlyphData
structure referenced from text.rs, the GlyphAdvance of the design). -/
structure GlyphData where
  glyph_id : ℕ
  x_advance : ℤ
  y_advance : ℤ
  x_offset : ℤ
  y_offset : ℤ
deriving DecidableEq, Repr

/-- GlyphMesh from mesh.rs: per-glyph vertices and u16 indices plus the
bounding rectangle advertised by the font. -/
structure GlyphMesh where
  glyph_id : ℕ
  vertices : List GlyphVertex
  indices : List ℕ
  bounds : ℤ × ℤ × ℤ × ℤ
deriving DecidableEq, Repr

/-- The per-vertex mutation sequence of TextMeshBuilder::build, written
with the same operation order as the source: add the cursor, multiply
by size_factor * font_size * 1.254, map to normalized device
coordinates via / texture_dim * 2 - 1, then add the origin offset
(position / texture_dim) * 2. -/
def transformVertex (size_factor : ℚ) (font_size : ℕ) (position : ℤ × ℤ)
    (cursor : ℚ × ℚ) (v : GlyphVertex) : GlyphVertex :=
  let x0 := v.position.1 + cursor.1
  let y0 := v.position.2.1 + cursor.2
  let x1 := x0 * size_factor * (font_size : ℚ) * 1.254
  let y1 := y0 * size_factor * (font_size : ℚ) * 1.254
  let x2 := x1 / (TEXTURE_SIZE.1 : ℚ) * 2 - 1
  let y2 := y1 / (TEXTURE_SIZE.2 : ℚ) * 2 - 1
  let x3 := x2 + ((position.1 : ℚ) / (TEXTURE_SIZE.1 : ℚ)) * 2
  let y3 := y2 + ((position.2 : ℚ) / (TEXTURE_SIZE.2 : ℚ)) * 2
  { v with position := (x3, y3, v.position.2.2) }

/-- The main loop of TextMeshBuilder::build: a present mesh is
re-indexed by the running vertex count (u16 arithmetic) and its
vertices transformed at the current cursor; the cursor consumes the
advance of every pair, mesh or not. -/
def textBuildLoop (size_factor : ℚ) (font_size : ℕ) (position : ℤ × ℤ) :
    List (Option GlyphMesh × GlyphData) → List GlyphVertex → List ℕ → ℚ × ℚ →
    List GlyphVertex × List ℕ × (ℚ × ℚ)
  | [], vertices, indices, cursor => (vertices, indices, cursor)
  | (some mesh, data) :: rest, vertices, indices, cursor =>
    textBuildLoop size_factor font_size position rest
      (vertices ++ mesh.vertices.map (transformVertex size_factor font_size position cursor))
      (indices ++ mesh.indices.map (fun i => (i + vertices.length % 65536) % 65536))
      (cursor.1 + (data.x_advance : ℚ), cursor.2 + (data.y_advance : ℚ))
  | (none, data) :: rest, vertices, indices, cursor =>
    textBuildLoop size_factor font_size position rest vertices indices
      (cursor.1 + (data.x_advance : ℚ), cursor.2 + (data.y_advance : ℚ))

/-- TextMeshBuilder::build: size_factor = 1.0 / face.height(), cursor
starts at (0,0); the result keeps the final cursor observable. -/
def TextMeshBuilder.build (face_height : ℚ) (font_size : ℕ) (position : ℤ × ℤ)
    (mesh_data : List (Option GlyphMesh × GlyphData)) :
    List GlyphVertex × List ℕ × (ℚ × ℚ) :=
  textBuildLoop (1 / face_height) font_size position mesh_data [] [] (0, 0)

/-- Spec-side restatement of the C5 transform: position plus cursor,
scaled by font_size / face_scale * 1.254, then px / texture_dim * 2 - 1,
then plus the origin offset in normalized space. To be compared with
transformVertex, which mirrors the source operation order. -/
def specTransform (face_height : ℚ) (font_size : ℕ) (position : ℤ × ℤ)
    (cursor : ℚ × ℚ) (v : GlyphVertex) : GlyphVertex :=
  { v with position :=
      (((v.position.1 + cursor.1) * ((font_size : ℚ) / face_height * 1.254))
          / (TEXTURE_SIZE.1 : ℚ) * 2 - 1 + ((position.1 : ℚ) / (TEXTURE_SIZE.1 : ℚ)) * 2,
       ((v.position.2.1 + cursor.2) * ((font_size : ℚ) / face_height * 1.254))
          / (TEXTURE_SIZE.2 : ℚ) * 2 - 1 + ((position.2 : ℚ) / (TEXTURE_SIZE.2 : ℚ)) * 2,
       v.position.2.2) }

/-- Spec-side vertex stream: every vertex of every present mesh is
transformed with specTransform at the cursor accumulated from the
preceding advances. -/
def specVertices (face_height : ℚ) (font_size : ℕ) (position : ℤ × ℤ) :
    List (Option GlyphMesh × GlyphData) → ℚ × ℚ → List GlyphVertex
  | [], _ => []
  | (some mesh, data) :: rest, cursor =>
    mesh.vertices.map (specTransform face_height font_size position cursor)
      ++ specVertices face_height font_size position rest
          (cursor.1 + (data.x_advance : ℚ), cursor.2 + (data.y_advance : ℚ))
  | (none, data) :: rest, cursor =>
    specVertices face_height font_size position rest
      (cursor.1 + (data.x_advance : ℚ), cursor.2 + (data.y_advance : ℚ))

/-- The Alignment enum of text.rs (namespaced: a root-level Alignment
already exists in the ambient library). -/
inductive Span.Alignment where
  | Start
  | Middle
  | End
deriving DecidableEq, Repr

/-- The FontSize enum of text.rs. -/
inductive FontSize where
  | Px (x : ℕ)
  | Pt (x : ℕ)
deriving DecidableEq, Repr

/-- The Into f32 conversion of FontSize: points scale by 150/72. -/
def FontSize.toF : FontSize → ℚ
  | .Px x => x
  | .Pt x => (x : ℚ) / 72 * 150

/-- The Into i32 conversion of FontSize; f32::round rounds half away
from zero, which on these nonnegative values is Mathlib round. -/
def FontSize.toI : FontSize → ℤ
  | .Px x => x
  | .Pt x => round ((x : ℚ) / 72 * 150)

/-- The Rust `as i32` cast of an f32 value: truncation toward zero
(saturation at the i32 bounds is not modelled; the theorems using this
stay far below them). -/
def ratTrunc (w : ℚ) : ℤ :=
  if 0 ≤ w then ⌊w⌋ else ⌈w⌉

/-- The width rescale in Span::generate_text_mesh: summed raw advances
divided by face.height(), times the f32 font size, times 1.254. -/
def measuredWidth (raw_width face_height : ℚ) (font_size : FontSize) : ℚ :=
  raw_width / face_height * font_size.toF * 1.254

/-- The alignment block of Span::generate_text_mesh: with a bounding
box, each axis is adjusted independently with i32 arithmetic; Rust
integer division on the nonnegative operands occurring here agrees
with the division used below. -/
def Span.alignedOrigin (position : ℤ × ℤ) (face_height : ℚ) (font_size : FontSize)
    (size : Option (ℕ × ℕ)) (h_align v_align : Span.Alignment) (raw_width : ℚ) : ℤ × ℤ :=
  let width := measuredWidth raw_width face_height font_size
  match size with
  | none => position
  | some (w, h) =>
    let x := match h_align with
      | .Start => position.1
      | .Middle => position.1 + (w : ℤ) / 2 - ratTrunc width / 2
      | .End => position.1 + (w : ℤ) - ratTrunc width
    let y := match v_align with
      | .Start => position.2
      | .Middle => position.2 + (h : ℤ) / 2 - font_size.toI / 2
      | .End => position.2 + (h : ℤ) - font_size.toI
    (x, y)

/-- One RGBA color, the [f32; 4] of a Span. -/
abbrev Color : Type := ℚ × ℚ × ℚ × ℚ

/-- Iterator::position over the palette, as used in
TextureRenderer::render. -/
def iterPosition : List Color → Color → Option ℕ
  | [], _ => none
  | c :: rest, target => if c = target then some 0 else (iterPosition rest target).map (· + 1)

/-- The span loop of TextureRenderer::render, restricted to its palette
bookkeeping: a color absent from all_colors is pushed, and the palette
index handed to generate_text_mesh is position(color).unwrap_or(0)
computed on the updated list. Returns the final palette and the
(color, index) pair of every span in order. -/
def renderLoop : List Color → List Color → List Color × List (Color × ℕ)
  | all_colors, [] => (all_colors, [])
  | all_colors, c :: rest =>
    let all_colors := if c ∈ all_colors then all_colors else all_colors ++ [c]
    let index := (iterPosition all_colors c).getD 0
    ((renderLoop all_colors rest).1, (c, index) :: (renderLoop all_colors rest).2)

/-- The palette after all spans are processed. -/
def renderPalette (colors : List Color) : List Color :=
  (renderLoop [] colors).1

/-- The palette index passed to each generate_text_mesh call, paired
with the color of that span. -/
def renderAssignments (colors : List Color) : List (Color × ℕ) :=
  (renderLoop [] colors).2

/-- Spec-side palette: the distinct colors in first-encounter order
(keep the head, drop its later duplicates, recurse). To be compared
with renderPalette. -/
def dedupFirst : List Color → List Color
  | [] => []
  | c :: rest => c :: dedupFirst (rest.filter (fun d => decide (d ≠ c)))
termination_by l => l.length
decreasing_by
  simp_wf
  exact Nat.lt_succ_of_le (List.length_filter_le _ _)

/-- The subpixel offset instance table of TextureRenderer::render:
third_pixel is computed as 1.0 / texture width, and the instances are
(-third_pixel, third_pixel, 0.0) in that order. -/
def subpixelOffsets (width : ℕ) : List ℚ :=
  [-(1 / (width : ℚ)), 1 / (width : ℚ), 0]

/-- C10: is_ccw_wind returns true on an exactly-zero shoelace sum (the
comparison is sum >= 0.0), so a degenerate zero-area ring always falls
on the counter-clockwise side of the tie, and under a glyf face
(reverse_wind = false) it is classified as a hole, never as a solid
ring starting a new group. -/
theorem c10_zero_area_hole (points : List Point) (h : shoelace points = 0) :
    is_ccw_wind points = true ∧ isPolygonHole false points = true := by
  have hccw : is_ccw_wind points = true := by simp [is_ccw_wind, h]
  exact ⟨hccw, by simp [isPolygonHole, hccw]⟩

/-- Witness for C10 at the collinear ring (0,0), (1,1), (2,2). -/
theorem c10_zero_area_hole_witness :
    shoelace [((0 : ℚ), (0 : ℚ)), (1, 1), (2, 2)] = 0 ∧
    is_ccw_wind [((0 : ℚ), (0 : ℚ)), (1, 1), (2, 2)] = true ∧
    isPolygonHole false [((0 : ℚ), (0 : ℚ)), (1, 1), (2, 2)] = true :=
  ⟨by norm_num [shoelace, List.range_succ],
   (c10_zero_area_hole _ (by norm_num [shoelace, List.range_succ])).1,
   (c10_zero_area_hole _ (by norm_num [shoelace, List.range_succ])).2⟩

/-- C9: when the first ring is classified as a hole, the grouping step
of triangulate unwraps None on the still-empty group list, i.e. the
call panics (modelled by none) whatever the earcut collaborator
would do. -/
theorem c9_first_hole_panic (b : GlyphMeshBuilder)
    (earcut : List ℚ → List ℕ → ℕ → Option (List ℕ))
    (points : List Point) (rest : List (List Point))
    (hpoly : b.polygons = points :: rest)
    (hhole : isPolygonHole b.reverse_wind points = true) :
    b.triangulate earcut = none := by
  unfold GlyphMeshBuilder.triangulate
  rw [hpoly]
  simp [groupPolygons, hhole]

/-- Witness for C9: a counter-clockwise first ring under a glyf face. -/
theorem c9_first_hole_panic_witness :
    GlyphMeshBuilder.triangulate ⟨false, [[(0, 0), (1, 0), (0, 1)]], []⟩
      (fun _ _ _ => some []) = none :=
  c9_first_hole_panic _ _ [((0 : ℚ), (0 : ℚ)), (1, 0), (0, 1)] [] rfl
    (by norm_num [isPolygonHole, is_ccw_wind, shoelace, List.range_succ])

/-- C8: the subpixel instance table is three offsets (-t, t, 0) in that
order with t = 1.0 / width; at the repository texture width 1920 this
t is not one third of a pixel, neither in normalized device units
(where one pixel is 2/width) nor in normalized texture units (where
one pixel is 1/width) — the code contradicts its own third_pixel
naming and its pixel/3 log line. -/
theorem c8_subpixel_offsets :
    subpixelOffsets 1920 = [-(1 / 1920), 1 / 1920, 0] ∧
    (1 / 1920 : ℚ) ≠ 1 / 3 * (2 / 1920) ∧
    (1 / 1920 : ℚ) ≠ 1 / 3 * (1 / 1920) :=
  ⟨by norm_num [subpixelOffsets], by norm_num, by norm_num⟩

/-- Counterexample for C6: with reverse_wind = false and a quad_to
whose curve triangle has negative shoelace sum, the control point is
NOT pushed onto the ring (the resulting ring is the old ring plus the
endpoint only), contradicting the claim that a negative pre-XOR sum is
exactly when the control point is pushed. -/
theorem c6_counterexample :
    shoelace [((1 : ℚ), (2 : ℚ)), (2, 3), (3, 1)] < 0 ∧
    GlyphMeshBuilder.quad_to ⟨false, [[(1, 2)]], []⟩ 2 3 3 1 =
      some ⟨false, [[(1, 2), (3, 1)]], [(((1, 2), (2, 3), (3, 1)), false)]⟩ ∧
    ((2 : ℚ), (3 : ℚ)) ∉ [((1 : ℚ), (2 : ℚ)), ((3 : ℚ), (1 : ℚ))] := by
  have h : is_ccw_wind [((1 : ℚ), (2 : ℚ)), (2, 3), (3, 1)] = false := by
    norm_num [is_ccw_wind, shoelace, List.range_succ]
  refine ⟨by norm_num [shoelace, List.range_succ], ?_, by norm_num⟩
  simp [GlyphMeshBuilder.quad_to, h]

/-- C6 amended: the off-curve control point is pushed onto the current
ring exactly when the post-XOR classification is true, i.e. when
(shoelace sum >= 0) XOR reverse_wind holds for the 3-point curve
triangle — not when the pre-XOR sum is negative. This holds for
quad_to and for each half of the curve_to split. -/
theorem c6_amended :
    (∀ (b b' : GlyphMeshBuilder) (x1 y1 x y : ℚ) (ring : List Point) (p0 : Point),
      b.polygons.getLast? = some ring → ring.getLast? = some p0 →
      b.quad_to x1 y1 x y = some b' →
      b'.polygons.getLast? = some (ring
        ++ (if (is_ccw_wind [p0, (x1, y1), (x, y)]).xor b.reverse_wind
            then [(x1, y1)] else [])
        ++ [(x, y)]))
    ∧
    (∀ (b b' : GlyphMeshBuilder) (x1 y1 x2 y2 x y : ℚ) (ring : List Point) (p0 : Point),
      b.polygons.getLast? = some ring → ring.getLast? = some p0 →
      b.curve_to x1 y1 x2 y2 x y = some b' →
      b'.polygons.getLast? = some (ring
        ++ (if (is_ccw_wind [p0, (x1, y1), (x1 + (x2 - x1) / 2, y1 + (y2 - y1) / 2)]).xor
              b.reverse_wind
            then [(x1, y1)] else [])
        ++ [(x1 + (x2 - x1) / 2, y1 + (y2 - y1) / 2)]
        ++ (if (is_ccw_wind [(x1 + (x2 - x1) / 2, y1 + (y2 - y1) / 2), (x2, y2), (x, y)]).xor
              b.reverse_wind
            then [(x2, y2)] else [])
        ++ [(x, y)])) := by
  constructor
  · intro b b' x1 y1 x y ring p0 h1 h2 h3
    rw [GlyphMeshBuilder.quad_to, h1] at h3
    simp only [Option.bind_eq_bind, Option.some_bind] at h3
    rw [h2] at h3
    simp only [Option.some_bind, Option.some.injEq] at h3
    subst h3
    simp [List.getLast?_concat]
  · intro b b' x1 y1 x2 y2 x y ring p0 h1 h2 h3
    rw [GlyphMeshBuilder.curve_to, h1] at h3
    simp only [Option.bind_eq_bind, Option.some_bind] at h3
    rw [h2] at h3
    simp only [Option.some_bind, Option.some.injEq] at h3
    subst h3
    simp [List.getLast?_concat]

/-- Witness for C6 amended, at the quad_to of the counterexample. -/
theorem c6_amended_witness :
    (⟨false, [[(1, 2), (3, 1)]], [(((1, 2), (2, 3), (3, 1)), false)]⟩ :
        GlyphMeshBuilder).polygons.getLast? =
      some ([((1 : ℚ), (2 : ℚ))]
        ++ (if (is_ccw_wind [((1 : ℚ), (2 : ℚ)), (2, 3), (3, 1)]).xor false
            then [(2, 3)] else [])
        ++ [(3, 1)]) := by
  have hccw : is_ccw_wind [((1 : ℚ), (2 : ℚ)), (2, 3), (3, 1)] = false := by
    norm_num [is_ccw_wind, shoelace, List.range_succ]
  exact c6_amended.1 ⟨false, [[(1, 2)]], []⟩
    ⟨false, [[(1, 2), (3, 1)]], [(((1, 2), (2, 3), (3, 1)), false)]⟩
    2 3 3 1 [((1 : ℚ), (2 : ℚ))] ((1 : ℚ), (2 : ℚ)) rfl rfl
    (by simp [GlyphMeshBuilder.quad_to, hccw])

/-- Counterexample for C1: when the earcut collaborator fails on a
shape group (degenerate geometry), triangulate unwraps the Err and
panics (modelled by none): no recoverable error value reaches the
caller, so the glyph cannot be skipped. -/
theorem c1_counterexample :
    GlyphMeshBuilder.triangulate ⟨false, [[(1, 2), (1, 3), (2, 2)]], []⟩
      (fun _ _ _ => none) = none := by
  have hccw : is_ccw_wind [((1 : ℚ), (2 : ℚ)), (1, 3), (2, 2)] = false := by
    norm_num [is_ccw_wind, shoelace, List.range_succ]
  simp [GlyphMeshBuilder.triangulate, isPolygonHole, hccw, groupPolygons, processGroups]

/-- C1 amended: whenever the polygon grouping succeeds and earcut
fails on the first shape group, triangulate returns none (the
panicking unwrap), for every builder state and earcut function. -/
theorem c1_amended (b : GlyphMeshBuilder)
    (earcut : List ℚ → List ℕ → ℕ → Option (List ℕ))
    (g : List (List Point)) (gs : List (List (List Point)))
    (hgroups : groupPolygons
      (b.polygons.zip (b.polygons.map (isPolygonHole b.reverse_wind))) [] = some (g :: gs))
    (hfail : earcut (flattenGroup g).1 (flattenGroup g).2.1 (flattenGroup g).2.2 = none) :
    b.triangulate earcut = none := by
  simp only [GlyphMeshBuilder.triangulate, hgroups]
  simp [processGroups, hfail]

/-- Witness for C1 amended at a square ring and an earcut that fails. -/
theorem c1_amended_witness :
    GlyphMeshBuilder.triangulate ⟨false, [[(1, 2), (1, 4), (3, 4), (3, 2)]], []⟩
      (fun _ _ _ => none) = none := by
  have hccw : is_ccw_wind [((1 : ℚ), (2 : ℚ)), (1, 4), (3, 4), (3, 2)] = false := by
    norm_num [is_ccw_wind, shoelace, List.range_succ]
  exact c1_amended _ _ [[((1 : ℚ), (2 : ℚ)), (1, 4), (3, 4), (3, 2)]] []
    (by simp [groupPolygons, isPolygonHole, hccw]) rfl

/-- The cursor threaded through textBuildLoop is the running sum of
the advances, for any start state. -/
theorem textBuildLoop_cursor (size_factor : ℚ) (font_size : ℕ) (position : ℤ × ℤ) :
    ∀ (mesh_data : List (Option GlyphMesh × GlyphData)) (vertices : List GlyphVertex)
      (indices : List ℕ) (cursor : ℚ × ℚ),
      (textBuildLoop size_factor font_size position mesh_data vertices indices cursor).2.2 =
        (cursor.1 + ((mesh_data.map (fun pr => pr.2.x_advance)).sum : ℚ),
         cursor.2 + ((mesh_data.map (fun pr => pr.2.y_advance)).sum : ℚ))
  | [], vertices, indices, cursor => by simp [textBuildLoop]
  | (some mesh, data) :: rest, vertices, indices, cursor => by
    rw [textBuildLoop, textBuildLoop_cursor size_factor font_size position rest]
    simp only [List.map_cons, List.sum_cons]
    refine Prod.ext ?_ ?_ <;> push_cast <;> ring
  | (none, data) :: rest, vertices, indices, cursor => by
    rw [textBuildLoop, textBuildLoop_cursor size_factor font_size position rest]
    simp only [List.map_cons, List.sum_cons]
    refine Prod.ext ?_ ?_ <;> push_cast <;> ring

/-- C3: after TextMeshBuilder::build has walked all n pairs, the
cursor equals the componentwise sum of the n x_advance and y_advance
values, whatever subset of the meshes was None: an absent mesh still
consumes its advance. Modelled with exact rationals in place of f32
accumulation. -/
theorem c3_cursor_sum (face_height : ℚ) (font_size : ℕ) (position : ℤ × ℤ)
    (mesh_data : List (Option GlyphMesh × GlyphData)) :
    (TextMeshBuilder.build face_height font_size position mesh_data).2.2 =
      (((mesh_data.map (fun pr => pr.2.x_advance)).sum : ℚ),
       ((mesh_data.map (fun pr => pr.2.y_advance)).sum : ℚ)) := by
  unfold TextMeshBuilder.build
  rw [textBuildLoop_cursor]
  simp

/-- The source mutation chain of TextMeshBuilder::build equals the
claimed closed-form transform: (p + cursor) scaled by
font_size / face_height * 1.254, then px / texture_dim * 2 - 1, plus
the origin offset in normalized space. -/
theorem transformVertex_eq_specTransform (face_height : ℚ) (font_size : ℕ)
    (position : ℤ × ℤ) (cursor : ℚ × ℚ) (v : GlyphVertex) :
    transformVertex (1 / face_height) font_size position cursor v =
      specTransform face_height font_size position cursor v := by
  cases v with
  | mk p uv md col =>
    simp only [transformVertex, specTransform, GlyphVertex.mk.injEq, Prod.mk.injEq,
      and_true, true_and]
    constructor <;> ring

/-- The vertex stream produced by textBuildLoop is the spec-side
stream, for any start state. -/
theorem textBuildLoop_vertices (face_height : ℚ) (font_size : ℕ) (position : ℤ × ℤ) :
    ∀ (mesh_data : List (Option GlyphMesh × GlyphData)) (vertices : List GlyphVertex)
      (indices : List ℕ) (cursor : ℚ × ℚ),
      (textBuildLoop (1 / face_height) font_size position mesh_data vertices indices cursor).1 =
        vertices ++ specVertices face_height font_size position mesh_data cursor
  | [], vertices, indices, cursor => by simp [textBuildLoop, specVertices]
  | (some mesh, data) :: rest, vertices, indices, cursor => by
    rw [textBuildLoop, textBuildLoop_vertices face_height font_size position rest]
    rw [show transformVertex (1 / face_height) font_size position cursor =
        specTransform face_height font_size position cursor from
      funext fun v => transformVertex_eq_specTransform face_height font_size position cursor v]
    simp [specVertices]
  | (none, data) :: rest, vertices, indices, cursor => by
    rw [textBuildLoop, textBuildLoop_vertices face_height font_size position rest]
    simp [specVertices]

/-- C5: every vertex of every present mesh is emitted by
TextMeshBuilder::build as the claimed transform of its input position
at the cursor accumulated from the preceding advances; the face scale
query in the denominator is face.height(), the units-per-em-equivalent
scale of the design. -/
theorem c5_vertex_transform (face_height : ℚ) (font_size : ℕ) (position : ℤ × ℤ)
    (mesh_data : List (Option GlyphMesh × GlyphData)) :
    (TextMeshBuilder.build face_height font_size position mesh_data).1 =
      specVertices face_height font_size position mesh_data (0, 0) := by
  unfold TextMeshBuilder.build
  rw [textBuildLoop_vertices]
  simp

/-- pairUp halves the flat coordinate count. -/
theorem pairUp_length : ∀ coords : List ℚ, (pairUp coords).length = coords.length / 2
  | [] => by simp [pairUp]
  | [_] => by simp [pairUp]
  | _ :: _ :: rest => by
    rw [pairUp]
    simp [pairUp_length rest]
    omega

/-- Invariant of the group loop: if every index so far is below the
vertex count, every index of a successful run stays below the final
vertex count, provided earcut only returns indices below the point
count of its input. -/
theorem processGroups_bound (earcut : List ℚ → List ℕ → ℕ → Option (List ℕ))
    (hear : ∀ pts holes dim tris, earcut pts holes dim = some tris →
      ∀ t ∈ tris, t < pts.length / 2) :
    ∀ (groups : List (List (List Point))) (vertices : List GlyphVertex)
      (indices : List ℕ) (out : List GlyphVertex × List ℕ),
      (∀ i ∈ indices, i < vertices.length) →
      processGroups earcut groups vertices indices = some out →
      ∀ i ∈ out.2, i < out.1.length
  | [], vertices, indices, out, hinv, hrun => by
    rw [processGroups] at hrun
    cases hrun
    exact hinv
  | g :: rest, vertices, indices, out, hinv, hrun => by
    rw [processGroups] at hrun
    cases hec : earcut (flattenGroup g).1 (flattenGroup g).2.1 (flattenGroup g).2.2 with
    | none => rw [hec] at hrun; cases hrun
    | some tris =>
      rw [hec] at hrun
      refine processGroups_bound earcut hear rest _ _ out ?_ hrun
      intro i hi
      rcases List.mem_append.1 hi with hold | hnew
      · have h1 := hinv i hold
        simp only [List.length_append]
        omega
      · obtain ⟨t, ht, rfl⟩ := List.mem_map.1 hnew
        have h1 : t < (flattenGroup g).1.length / 2 := hear _ _ _ _ hec t ht
        have h2 : (vertices.length + t) % 65536 ≤ vertices.length + t := Nat.mod_le _ _
        simp only [List.length_append, List.length_map, pairUp_length]
        omega

/-- Invariant of the curve-triangle loop: indices stay below the vertex
count. -/
theorem processBeziers_bound :
    ∀ (beziers : List ((Point × Point × Point) × Bool)) (vertices : List GlyphVertex)
      (indices : List ℕ),
      (∀ i ∈ indices, i < vertices.length) →
      ∀ i ∈ (processBeziers beziers vertices indices).2,
        i < (processBeziers beziers vertices indices).1.length
  | [], vertices, indices, hinv => by
    rw [processBeziers]
    exact hinv
  | (tri, inv) :: rest, vertices, indices, hinv => by
    rw [processBeziers]
    refine processBeziers_bound rest _ _ ?_
    intro i hi
    have hlen : (vertices ++ bezierVertices tri inv).length = vertices.length + 3 := by
      simp [bezierVertices]
    rcases List.mem_append.1 hi with hold | hnew
    · have h1 := hinv i hold
      omega
    · have hm1 : vertices.length % 65536 ≤ vertices.length := Nat.mod_le _ _
      have hm2 : (vertices.length % 65536 + 1) % 65536 ≤ vertices.length % 65536 + 1 :=
        Nat.mod_le _ _
      have hm3 : (vertices.length % 65536 + 2) % 65536 ≤ vertices.length % 65536 + 2 :=
        Nat.mod_le _ _
      simp only [List.mem_cons, List.mem_singleton, List.not_mem_nil, or_false] at hnew
      rcases hnew with rfl | rfl | rfl <;> omega

/-- C2: for every mesh produced by GlyphMeshBuilder::build from any
outline event stream, every index is strictly below the vertex count,
assuming the external earcut collaborator only emits indices into the
point list it was handed. -/
theorem c2_index_bound (reverse_wind : Bool) (events : List OutlineEvent)
    (earcut : List ℚ → List ℕ → ℕ → Option (List ℕ))
    (hear : ∀ pts holes dim tris, earcut pts holes dim = some tris →
      ∀ t ∈ tris, t < pts.length / 2)
    (vertices : List GlyphVertex) (indices : List ℕ)
    (hbuild : buildMesh reverse_wind events earcut = some (vertices, indices)) :
    ∀ i ∈ indices, i < vertices.length := by
  rw [buildMesh] at hbuild
  cases hb : applyEvents events (GlyphMeshBuilder.new reverse_wind) with
  | none => rw [hb] at hbuild; cases hbuild
  | some b =>
    rw [hb] at hbuild
    simp only [Option.bind_eq_bind, Option.some_bind] at hbuild
    rw [GlyphMeshBuilder.triangulate] at hbuild
    cases hg : groupPolygons (b.polygons.zip (b.polygons.map (isPolygonHole b.reverse_wind))) []
      with
    | none => rw [hg] at hbuild; cases hbuild
    | some groups =>
      rw [hg] at hbuild
      simp only [Option.bind_eq_bind, Option.some_bind] at hbuild
      cases hp : processGroups earcut groups [] [] with
      | none => rw [hp] at hbuild; cases hbuild
      | some out =>
        rw [hp] at hbuild
        simp only [Option.some_bind, Option.some.injEq] at hbuild
        have hout := processGroups_bound earcut hear groups [] [] out (by simp) hp
        have hfin := processBeziers_bound b.bezier_polygons out.1 out.2 hout
        rw [hbuild] at hfin
        exact hfin

/-- A concrete earcut stand-in for the C2 witness: a triangle fan
[0, 1, 2] whenever at least three points are present. -/
def c2Earcut : List ℚ → List ℕ → ℕ → Option (List ℕ) := fun pts _ _ =>
  if 3 ≤ pts.length / 2 then some [0, 1, 2] else none

/-- Witness for C2 at a concrete clockwise triangle outline. -/
theorem c2_index_bound_witness :
    buildMesh false [.moveTo 1 2, .lineTo 1 3, .lineTo 2 2] c2Earcut =
      some ([flatVertex (1, 2), flatVertex (1, 3), flatVertex (2, 2)], [0, 1, 2]) ∧
    ∀ i ∈ ([0, 1, 2] : List ℕ),
      i < [flatVertex (1, 2), flatVertex (1, 3), flatVertex (2, 2)].length := by
  have hccw : is_ccw_wind [((1 : ℚ), (2 : ℚ)), (1, 3), (2, 2)] = false := by
    norm_num [is_ccw_wind, shoelace, List.range_succ]
  have hb : buildMesh false [.moveTo 1 2, .lineTo 1 3, .lineTo 2 2] c2Earcut =
      some ([flatVertex (1, 2), flatVertex (1, 3), flatVertex (2, 2)], [0, 1, 2]) := by
    simp [buildMesh, applyEvents, applyEvent, GlyphMeshBuilder.new, GlyphMeshBuilder.move_to,
      GlyphMeshBuilder.line_to, GlyphMeshBuilder.triangulate, isPolygonHole, hccw,
      groupPolygons, processGroups, processBeziers, flattenGroup, ringCoords, pairUp,
      c2Earcut]
  refine ⟨hb, c2_index_bound false _ c2Earcut ?_ _ _ hb⟩
  intro pts holes dim tris h t ht
  rw [c2Earcut] at h
  split at h
  · next hcond =>
    cases h
    simp only [List.mem_cons, List.mem_singleton, List.not_mem_nil, or_false] at ht
    rcases ht with rfl | rfl | rfl <;> omega
  · cases h

/-- The palette only grows by appending: processing more spans keeps
every existing entry at its index. -/
theorem renderLoop_palette_append : ∀ (colors acc : List Color),
    ∃ t, (renderLoop acc colors).1 = acc ++ t
  | [], acc => ⟨[], by simp [renderLoop]⟩
  | c :: rest, acc => by
    by_cases hc : c ∈ acc
    · obtain ⟨t, ht⟩ := renderLoop_palette_append rest acc
      exact ⟨t, by simp only [renderLoop, if_pos hc]; exact ht⟩
    · obtain ⟨t, ht⟩ := renderLoop_palette_append rest (acc ++ [c])
      refine ⟨c :: t, ?_⟩
      simp only [renderLoop, if_neg hc]
      rw [ht]
      simp

/-- The palette accumulated from acc is acc followed by the
first-encounter deduplication of the colors not already in acc. -/
theorem renderLoop_palette_eq : ∀ (colors acc : List Color),
    (renderLoop acc colors).1 =
      acc ++ dedupFirst (colors.filter (fun d => decide (d ∉ acc)))
  | [], acc => by simp [renderLoop, dedupFirst]
  | c :: rest, acc => by
    by_cases hc : c ∈ acc
    · rw [List.filter_cons_of_neg (by simp [hc])]
      simp only [renderLoop, if_pos hc]
      exact renderLoop_palette_eq rest acc
    · rw [List.filter_cons_of_pos (by simp [hc])]
      simp only [renderLoop, if_neg hc]
      rw [renderLoop_palette_eq rest (acc ++ [c]), dedupFirst]
      rw [List.filter_filter]
      have hpred : ∀ d ∈ rest,
          (decide (d ∉ acc ++ [c]) : Bool) = (decide (d ≠ c) && decide (d ∉ acc)) := by
        intro d _
        by_cases h1 : d = c <;> by_cases h2 : d ∈ acc <;> simp [h1, h2, hc]
      rw [List.filter_congr hpred]
      simp

/-- The palette is duplicate-free when the start palette is. -/
theorem renderLoop_palette_nodup : ∀ (colors acc : List Color),
    acc.Nodup → ((renderLoop acc colors).1).Nodup
  | [], acc, h => by simpa [renderLoop] using h
  | c :: rest, acc, h => by
    by_cases hc : c ∈ acc
    · simp only [renderLoop, if_pos hc]
      exact renderLoop_palette_nodup rest acc h
    · simp only [renderLoop, if_neg hc]
      refine renderLoop_palette_nodup rest (acc ++ [c]) ?_
      simp [List.nodup_append, h, hc]

/-- The palette holds exactly the colors seen plus the start palette. -/
theorem renderLoop_palette_mem : ∀ (colors acc : List Color) (a : Color),
    a ∈ (renderLoop acc colors).1 ↔ a ∈ acc ∨ a ∈ colors
  | [], acc, a => by simp [renderLoop]
  | c :: rest, acc, a => by
    by_cases hc : c ∈ acc
    · simp only [renderLoop, if_pos hc]
      rw [renderLoop_palette_mem rest acc a]
      have hac : a = c → a ∈ acc := fun h => h ▸ hc
      simp only [List.mem_cons]
      tauto
    · simp only [renderLoop, if_neg hc]
      rw [renderLoop_palette_mem rest (acc ++ [c]) a]
      simp only [List.mem_append, List.mem_cons, List.mem_singleton]
      tauto

/-- Iterator::position finds a member and the list resolves that index
back to the member. -/
theorem iterPosition_spec : ∀ (l : List Color) (a : Color), a ∈ l →
    ∃ k, iterPosition l a = some k ∧ k < l.length ∧ l[k]? = some a
  | [], a, h => absurd h (by simp)
  | c :: rest, a, h => by
    by_cases hc : c = a
    · exact ⟨0, by simp [iterPosition, hc], by simp, by simp [hc]⟩
    · have ha : a ∈ rest := by
        rcases List.mem_cons.1 h with h1 | h1
        · exact absurd h1.symm hc
        · exact h1
      obtain ⟨k, h1, h2, h3⟩ := iterPosition_spec rest a ha
      exact ⟨k + 1, by simp [iterPosition, hc, h1], by simpa using h2, by simpa using h3⟩

/-- Every (color, index) pair handed out during the render loop
resolves through the final palette to that color. -/
theorem renderLoop_resolve : ∀ (colors acc : List Color) (p : Color × ℕ),
    p ∈ (renderLoop acc colors).2 → (renderLoop acc colors).1[p.2]? = some p.1
  | [], acc, p, h => by simp [renderLoop] at h
  | c :: rest, acc, p, h => by
    simp only [renderLoop] at h ⊢
    rcases List.mem_cons.1 h with hp | hp
    · subst hp
      have hcmem : c ∈ (if c ∈ acc then acc else acc ++ [c]) := by
        by_cases hc : c ∈ acc <;> simp [hc]
      obtain ⟨k, hk1, hk2, hk3⟩ := iterPosition_spec _ c hcmem
      obtain ⟨t, ht⟩ := renderLoop_palette_append rest (if c ∈ acc then acc else acc ++ [c])
      rw [ht, hk1]
      simp only [Option.getD_some]
      rw [List.getElem?_append_left hk2]
      exact hk3
    · exact renderLoop_resolve rest _ p hp

/-- C4: over any span sequence, the palette built during render is the
first-encounter deduplication of the span colors (exact RGBA
equality), its size is the number of distinct colors, and the palette
index passed to each generate_text_mesh call resolves through the
palette to that span's color. -/
theorem c4_palette (colors : List Color) :
    renderPalette colors = dedupFirst colors ∧
    (renderPalette colors).length = colors.toFinset.card ∧
    ∀ p ∈ renderAssignments colors, (renderPalette colors)[p.2]? = some p.1 := by
  refine ⟨?_, ?_, ?_⟩
  · have h := renderLoop_palette_eq colors []
    simpa [renderPalette] using h
  · have hnodup := renderLoop_palette_nodup colors [] (by simp)
    have htf : (renderPalette colors).toFinset = colors.toFinset := by
      ext a
      simpa [renderPalette, List.mem_toFinset] using renderLoop_palette_mem colors [] a
    rw [← htf]
    exact (List.toFinset_card_of_nodup hnodup).symm
  · intro p hp
    exact renderLoop_resolve colors [] p hp

/-- Witness for C4: three spans in two distinct colors; the second
span's index 1 resolves to its color. -/
theorem c4_palette_witness :
    ((((0 : ℚ), (0 : ℚ), (0 : ℚ), (1 : ℚ)), 0) ∈
        renderAssignments [(0, 0, 0, 1), (1, 0, 0, 1), (0, 0, 0, 1)]) ∧
    (renderPalette [(0, 0, 0, 1), (1, 0, 0, 1), (0, 0, 0, 1)])[(0 : ℕ)]? =
      some ((0 : ℚ), (0 : ℚ), (0 : ℚ), (1 : ℚ)) := by
  have hmem : ((((0 : ℚ), (0 : ℚ), (0 : ℚ), (1 : ℚ)), 0) ∈
      renderAssignments [(0, 0, 0, 1), (1, 0, 0, 1), (0, 0, 0, 1)]) := by
    simp [renderAssignments, renderLoop, iterPosition]
  exact ⟨hmem, (c4_palette [(0, 0, 0, 1), (1, 0, 0, 1), (0, 0, 0, 1)]).2.2 _ hmem⟩

/-- C7: with a bounding box of width W, Middle horizontal alignment
puts the origin within 3/2 of box_x + W/2 - measured_width/2 and End
alignment puts it within 1 of box_x + W - measured_width, the slack
being exactly the i32 truncations of the source (measured_width is the
summed x_advances rescaled to pixels). -/
theorem c7_alignment (position : ℤ × ℤ) (face_height : ℚ) (font_size : FontSize)
    (w h : ℕ) (v_align : Span.Alignment) (raw_width : ℚ)
    (hw : 0 ≤ measuredWidth raw_width face_height font_size) :
    |((Span.alignedOrigin position face_height font_size (some (w, h)) .Middle v_align
          raw_width).1 : ℚ)
        - ((position.1 : ℚ) + (w : ℚ) / 2 - measuredWidth raw_width face_height font_size / 2)|
      ≤ 3 / 2 ∧
    |((Span.alignedOrigin position face_height font_size (some (w, h)) .End v_align
          raw_width).1 : ℚ)
        - ((position.1 : ℚ) + (w : ℚ) - measuredWidth raw_width face_height font_size)|
      < 1 := by
  set mw := measuredWidth raw_width face_height font_size with hmw
  have htr : ratTrunc mw = ⌊mw⌋ := if_pos hw
  have hx1 : (Span.alignedOrigin position face_height font_size (some (w, h)) .Middle v_align
      raw_width).1 = position.1 + (w : ℤ) / 2 - ⌊mw⌋ / 2 := by
    simp [Span.alignedOrigin, htr, ← hmw]
  have hx2 : (Span.alignedOrigin position face_height font_size (some (w, h)) .End v_align
      raw_width).1 = position.1 + (w : ℤ) - ⌊mw⌋ := by
    simp [Span.alignedOrigin, htr, ← hmw]
  have hf1 : (⌊mw⌋ : ℚ) ≤ mw := Int.floor_le mw
  have hf2 : mw < ⌊mw⌋ + 1 := Int.lt_floor_add_one mw
  have hwa : 2 * ((w : ℤ) / 2) ≤ (w : ℤ) := by omega
  have hwb : (w : ℤ) ≤ 2 * ((w : ℤ) / 2) + 1 := by omega
  have hna : 2 * (⌊mw⌋ / 2) ≤ ⌊mw⌋ := by omega
  have hnb : ⌊mw⌋ ≤ 2 * (⌊mw⌋ / 2) + 1 := by omega
  have hwaq : 2 * (((w : ℤ) / 2 : ℤ) : ℚ) ≤ (w : ℚ) := by exact_mod_cast hwa
  have hwbq : (w : ℚ) ≤ 2 * (((w : ℤ) / 2 : ℤ) : ℚ) + 1 := by exact_mod_cast hwb
  have hnaq : 2 * ((⌊mw⌋ / 2 : ℤ) : ℚ) ≤ (⌊mw⌋ : ℚ) := by exact_mod_cast hna
  have hnbq : (⌊mw⌋ : ℚ) ≤ 2 * ((⌊mw⌋ / 2 : ℤ) : ℚ) + 1 := by exact_mod_cast hnb
  constructor
  · rw [hx1, abs_le]
    push_cast
    constructor <;> linarith
  · rw [hx2, abs_lt]
    push_cast
    constructor <;> linarith

/-- Witness for C7 at a 1000-unit face, 100 px font size, box width
200 and raw advance sum 500 (measured width 62.7 px). -/
theorem c7_alignment_witness :
    0 ≤ measuredWidth 500 1000 (FontSize.Px 100) ∧
    (|((Span.alignedOrigin ((5 : ℤ), (7 : ℤ)) 1000 (FontSize.Px 100) (some (200, 50))
          .Middle .Start 500).1 : ℚ)
        - ((((5 : ℤ), (7 : ℤ)).1 : ℚ) + ((200 : ℕ) : ℚ) / 2
            - measuredWidth 500 1000 (FontSize.Px 100) / 2)|
      ≤ 3 / 2 ∧
    |((Span.alignedOrigin ((5 : ℤ), (7 : ℤ)) 1000 (FontSize.Px 100) (some (200, 50))
          .End .Start 500).1 : ℚ)
        - ((((5 : ℤ), (7 : ℤ)).1 : ℚ) + ((200 : ℕ) : ℚ)
            - measuredWidth 500 1000 (FontSize.Px 100))|
      < 1) :=
  ⟨by norm_num [measuredWidth, FontSize.toF],
   c7_alignment ((5 : ℤ), (7 : ℤ)) 1000 (FontSize.Px 100) 200 50 .Start 500
     (by norm_num [measuredWidth, FontSize.toF])⟩
